import Mathlib

/-!
Verification of the `sense_music` audio appliance core
(`src/sense_music/music_display.py`, `src/sense_music/audio_visualizer.py`).

We shallowly embed the code under verification:
* the metadata protocol reader (`MetadataReader`) over `List Char` with
  rational timestamps;
* the spectral analyzer (`compute_levels`) and the AGC/limiter part of
  `audio_callback` over exact real arithmetic, where a NumPy NaN (which
  arises exactly from `np.mean` of an empty slice) is modelled as `none`
  in an `Option ℝ` and propagated through `np.maximum`, `np.log10`,
  arithmetic and `np.clip` exactly as NaN propagates in NumPy;
* the ambient spinner cursor over `ℕ`.
-/

namespace SenseMusic

/-! ### Substring search (Python `str.find`) -/

/-- Auxiliary scan: first index `≥ i` (counting from the original start)
at which `pat` is a prefix of the remaining list. -/
def findSubAux (pat : List Char) : List Char → ℕ → Option ℕ
  | [], i => if pat.isPrefixOf [] then some i else none
  | c :: t, i => if pat.isPrefixOf (c :: t) then some i else findSubAux pat t (i + 1)

/-- Python `s.find(pat)` (as `Option`: `none` for `-1`). -/
def findSub (pat l : List Char) : Option ℕ :=
  findSubAux pat l 0

/-- Python `s.find(pat, start)`: absolute index of the first occurrence of
`pat` at or after position `start`. -/
def findSubFrom (pat l : List Char) (start : ℕ) : Option ℕ :=
  (findSubAux pat (l.drop start) 0).map (· + start)

/-- Python `s[-n:]`: the last `n` characters (the whole list when shorter). -/
def takeTail (n : ℕ) (l : List Char) : List Char :=
  l.drop (l.length - n)

/-! ### `MetadataReader._read_chunks`: the buffer/framing loop

The inner `while True` loop of `_read_chunks` (music_display.py:643-658):
repeatedly extract complete `<item>...</item>` blocks; with no start marker
truncate the buffer to its last 1024 characters; with a start marker but no
end marker drop everything before the start marker. -/

def itemOpenMarker : List Char := "<item>".toList

def itemCloseMarker : List Char := "</item>".toList

lemma findSubAux_le_length (pat : List Char) :
    ∀ (l : List Char) (i j : ℕ), findSubAux pat l i = some j →
      i ≤ j ∧ pat.isPrefixOf (l.drop (j - i)) = true
  | l, i, j => by
    intro h
    cases l with
    | nil =>
      rw [findSubAux] at h
      by_cases hp : List.isPrefixOf pat [] = true
      · rw [if_pos hp] at h
        cases h
        simpa using hp
      · rw [if_neg hp] at h
        exact absurd h (by simp)
    | cons c t =>
      rw [findSubAux] at h
      by_cases hp : List.isPrefixOf pat (c :: t) = true
      · rw [if_pos hp] at h
        cases h
        simpa using hp
      · rw [if_neg hp] at h
        obtain ⟨h1, h2⟩ := findSubAux_le_length pat t (i + 1) j h
        refine ⟨by omega, ?_⟩
        have hji : j - i = (j - (i + 1)) + 1 := by omega
        simpa [hji] using h2

/-- The extraction loop body of `_read_chunks`, as a function from the
buffer to the list of extracted item blocks and the new buffer. -/
def processBuffer (buf : List Char) : List (List Char) × List Char :=
  match hs : findSub itemOpenMarker buf with
  | none => ([], takeTail 1024 buf)
  | some s =>
    match he : findSubFrom itemCloseMarker buf s with
    | none => ([], if 0 < s then buf.drop s else buf)
    | some e =>
      let block := (buf.drop s).take (e + itemCloseMarker.length - s)
      let rest := buf.drop (e + itemCloseMarker.length)
      let next := processBuffer rest
      (block :: next.1, next.2)
termination_by buf.length
decreasing_by
  have hlen : itemCloseMarker.length = 7 := by decide
  simp only [findSubFrom, Option.map_eq_some'] at he
  obtain ⟨a, ha, hae⟩ := he
  obtain ⟨-, h2⟩ := findSubAux_le_length itemCloseMarker (buf.drop s) 0 a ha
  have h3 : itemCloseMarker.length ≤ ((buf.drop s).drop (a - 0)).length :=
    List.IsPrefix.length_le ( List.isPrefixOf_iff_prefix.mp h2)
  simp only [List.length_drop] at h3
  simp only [List.length_drop]
  omega

/-- Process one incoming decoded chunk: `_read_chunks` appends the chunk to
the buffer, then runs the extraction loop. -/
def feedChunk (buf chunk : List Char) : List (List Char) × List Char :=
  processBuffer (buf ++ chunk)

/-- The buffer after a sequence of chunks has been read and processed
(starting from buffer `buf`). -/
def runBuffer (buf : List Char) : List (List Char) → List Char
  | [] => buf
  | c :: cs => runBuffer (feedChunk buf c).2 cs

/-! ### Item decoding (`MetadataReader._handle_item_xml`) -/

/-- Hex digit (the character class of `RE_PIPE_TYPE` / `RE_PIPE_CODE`). -/
def isHexDigitCh (c : Char) : Bool :=
  ('0' ≤ c ∧ c ≤ '9') ∨ ('A' ≤ c ∧ c ≤ 'F') ∨ ('a' ≤ c ∧ c ≤ 'f')

def hexVal (c : Char) : ℕ :=
  if '0' ≤ c ∧ c ≤ '9' then c.toNat - '0'.toNat
  else if 'A' ≤ c ∧ c ≤ 'F' then c.toNat - 'A'.toNat + 10
  else c.toNat - 'a'.toNat + 10

/-- A match attempt of the pattern `openT([0-9A-Fa-f]+)closeT` anchored at
the head of `s`.  Since `closeT` begins with `<`, which is not a hex digit,
the backtracking regex matches here exactly when the maximal hex-digit run
after `openT` is nonempty and is followed immediately by `closeT`. -/
def hexFieldAt (openT closeT s : List Char) : Option (List Char) :=
  if openT.isPrefixOf s then
    let rest := s.drop openT.length
    let run := rest.takeWhile isHexDigitCh
    if run ≠ [] ∧ closeT.isPrefixOf (rest.drop run.length) then some run else none
  else none

/-- `re.search` for `openT([0-9A-Fa-f]+)closeT`: leftmost match wins. -/
def searchHexField (openT closeT : List Char) : List Char → Option (List Char)
  | [] => hexFieldAt openT closeT []
  | c :: t =>
    match hexFieldAt openT closeT (c :: t) with
    | some r => some r
    | none => searchHexField openT closeT t

/-- A match attempt of `RE_PIPE_DATA` = `<data[^>]*>(.*?)</data>` (DOTALL)
anchored at the head of `s`: after the literal `<data`, the greedy `[^>]*`
can only succeed by consuming the maximal run of non-`>` characters, the
literal `>` must follow, and the lazy `(.*?)` captures up to the first
`</data>`. -/
def dataFieldAt (s : List Char) : Option (List Char) :=
  if ("<data".toList).isPrefixOf s then
    let rest := s.drop 5
    let attrs := rest.takeWhile (fun c => c ≠ '>')
    match rest.drop attrs.length with
    | '>' :: body =>
      match findSub ("</data>".toList) body with
      | some j => some (body.take j)
      | none => none
    | _ => none
  else none

/-- `re.search` for `RE_PIPE_DATA`: leftmost match wins. -/
def searchDataField : List Char → Option (List Char)
  | [] => dataFieldAt []
  | c :: t =>
    match dataFieldAt (c :: t) with
    | some r => some r
    | none => searchDataField t

/-- `bytes.fromhex` on a whitespace-free string: pairs of hex digits;
fails (`ValueError`) on a lone trailing digit or a non-hex character. -/
def fromHex : List Char → Option (List ℕ)
  | [] => some []
  | [_] => none
  | a :: b :: t =>
    if isHexDigitCh a ∧ isHexDigitCh b then
      (fromHex t).map (fun r => (hexVal a * 16 + hexVal b) :: r)
    else none

/-- `bytes.decode("ascii", "ignore")`: keep bytes below 128. -/
def asciiIgnore (bs : List ℕ) : List Char :=
  bs.filterMap (fun b => if b < 128 then some (Char.ofNat b) else none)

/-- Base64 alphabet value of a character. -/
def b64Val (c : Char) : Option ℕ :=
  if 'A' ≤ c ∧ c ≤ 'Z' then some (c.toNat - 'A'.toNat)
  else if 'a' ≤ c ∧ c ≤ 'z' then some (c.toNat - 'a'.toNat + 26)
  else if '0' ≤ c ∧ c ≤ '9' then some (c.toNat - '0'.toNat + 52)
  else if c = '+' then some 62
  else if c = '/' then some 63
  else none

/-- Decode a run of 6-bit values (quads of four give three bytes, a
trailing triple two bytes, a trailing pair one byte). -/
def b64Bytes : List ℕ → List ℕ
  | a :: b :: c :: d :: rest =>
    (a * 4 + b / 16) :: ((b % 16) * 16 + c / 4) :: ((c % 4) * 64 + d) :: b64Bytes rest
  | [a, b, c] => [a * 4 + b / 16, (b % 16) * 16 + c / 4]
  | [a, b] => [a * 4 + b / 16]
  | [_] => []
  | [] => []

/-- Model of `base64.b64decode` (default lenient mode): characters outside
the alphabet and `=` are discarded, the retained length must be a multiple
of four, `=` may appear only as the final one or two retained characters;
otherwise `binascii.Error` (modelled as `none`). -/
def b64decode (s : List Char) : Option (List ℕ) :=
  let kept := s.filter (fun c => (b64Val c).isSome ∨ c = '=')
  let dataChars := kept.takeWhile (fun c => c ≠ '=')
  let pads := kept.drop dataChars.length
  if (kept.length % 4 = 0 ∧ pads.length ≤ 2) ∧ pads.all (fun c => c = '=') then
    some (b64Bytes (dataChars.filterMap b64Val))
  else none

/-- A permissive UTF-8 decode modelling `bytes.decode("utf-8", "ignore")`:
decodable sequences become characters, an undecodable lead byte or invalid
continuation is skipped and decoding resumes at the next byte, and a
truncated trailing sequence is dropped. -/
def utf8Ignore : List ℕ → List Char
  | [] => []
  | [b] => if b < 0x80 then [Char.ofNat b] else []
  | [b, c] =>
    if b < 0x80 then Char.ofNat b :: utf8Ignore [c]
    else if 0xC2 ≤ b ∧ b ≤ 0xDF then
      if 0x80 ≤ c ∧ c ≤ 0xBF then [Char.ofNat ((b - 0xC0) * 64 + (c - 0x80))]
      else utf8Ignore [c]
    else if 0xE0 ≤ b ∧ b ≤ 0xF4 then []
    else utf8Ignore [c]
  | [b, c, d] =>
    if b < 0x80 then Char.ofNat b :: utf8Ignore [c, d]
    else if 0xC2 ≤ b ∧ b ≤ 0xDF then
      if 0x80 ≤ c ∧ c ≤ 0xBF then Char.ofNat ((b - 0xC0) * 64 + (c - 0x80)) :: utf8Ignore [d]
      else utf8Ignore [c, d]
    else if 0xE0 ≤ b ∧ b ≤ 0xEF then
      if (0x80 ≤ c ∧ c ≤ 0xBF) ∧ (0x80 ≤ d ∧ d ≤ 0xBF) ∧
          (b = 0xE0 → 0xA0 ≤ c) ∧ (b = 0xED → c ≤ 0x9F) then
        [Char.ofNat ((b - 0xE0) * 4096 + (c - 0x80) * 64 + (d - 0x80))]
      else utf8Ignore [c, d]
    else if 0xF0 ≤ b ∧ b ≤ 0xF4 then []
    else utf8Ignore [c, d]
  | b :: c :: d :: e :: rest =>
    if b < 0x80 then Char.ofNat b :: utf8Ignore (c :: d :: e :: rest)
    else if 0xC2 ≤ b ∧ b ≤ 0xDF then
      if 0x80 ≤ c ∧ c ≤ 0xBF then
        Char.ofNat ((b - 0xC0) * 64 + (c - 0x80)) :: utf8Ignore (d :: e :: rest)
      else utf8Ignore (c :: d :: e :: rest)
    else if 0xE0 ≤ b ∧ b ≤ 0xEF then
      if (0x80 ≤ c ∧ c ≤ 0xBF) ∧ (0x80 ≤ d ∧ d ≤ 0xBF) ∧
          (b = 0xE0 → 0xA0 ≤ c) ∧ (b = 0xED → c ≤ 0x9F) then
        Char.ofNat ((b - 0xE0) * 4096 + (c - 0x80) * 64 + (d - 0x80)) :: utf8Ignore (e :: rest)
      else utf8Ignore (c :: d :: e :: rest)
    else if 0xF0 ≤ b ∧ b ≤ 0xF4 then
      if (0x80 ≤ c ∧ c ≤ 0xBF) ∧ (0x80 ≤ d ∧ d ≤ 0xBF) ∧ (0x80 ≤ e ∧ e ≤ 0xBF) ∧
          (b = 0xF0 → 0x90 ≤ c) ∧ (b = 0xF4 → c ≤ 0x8F) then
        Char.ofNat ((b - 0xF0) * 262144 + (c - 0x80) * 4096 + (d - 0x80) * 64 + (e - 0x80)) ::
          utf8Ignore rest
      else utf8Ignore (c :: d :: e :: rest)
    else utf8Ignore (c :: d :: e :: rest)

/-- Python `str.strip()` whitespace set (ASCII part). -/
def isPySpace (c : Char) : Bool :=
  c = ' ' ∨ c = '\t' ∨ c = '\n' ∨ c = '\r' ∨ c = '\x0b' ∨ c = '\x0c'

/-- Python `str.strip()`. -/
def pyStrip (s : List Char) : List Char :=
  ((s.dropWhile isPySpace).reverse.dropWhile isPySpace).reverse

/-- The three regex extractions of `_handle_item_xml`
(`RE_PIPE_TYPE`, `RE_PIPE_CODE`, `RE_PIPE_DATA`); `none` when any of the
three fails to match (the `if not (m_type and m_code and m_data)` guard). -/
def extractFields (item : List Char) : Option (List Char × List Char × List Char) :=
  match searchHexField ("<type>".toList) ("</type>".toList) item,
      searchHexField ("<code>".toList) ("</code>".toList) item,
      searchDataField item with
  | some t, some c, some d => some (t, c, d)
  | _, _, _ => none

/-- Full decode of an item: regex extraction, `strip`, `bytes.fromhex` of
type and code (decoded as ASCII-ignore), and `b64decode` of the data field.
`none` models every early `return` of `_handle_item_xml`. -/
def decodeItemFields (item : List Char) : Option (List Char × List Char × List ℕ) :=
  match extractFields item with
  | none => none
  | some (t, c, d) =>
    match fromHex (pyStrip t), fromHex (pyStrip c) with
    | some tb, some cb =>
      (b64decode (pyStrip d)).map (fun p => (asciiIgnore tb, asciiIgnore cb, p))
    | _, _ => none

/-- The mutable fields of `MetadataReader` relevant to track state. -/
structure RState where
  lastArtist : Option (List Char)
  lastTitle : Option (List Char)
  lastUpdate : ℚ
  deriving DecidableEq

/-- `MetadataReader.__init__` track state. -/
def initState : RState := { lastArtist := none, lastTitle := none, lastUpdate := 0 }

def coreChars : List Char := "core".toList

def asarChars : List Char := "asar".toList

def minmChars : List Char := "minm".toList

/-- `MetadataReader._handle_item_xml`, with `now` (the `time.time()` read)
passed explicitly. -/
def handleItem (st : RState) (item : List Char) (now : ℚ) : RState :=
  match decodeItemFields item with
  | none => st
  | some (tc, cd, payload) =>
    if tc = coreChars ∧ cd = asarChars then
      { st with lastArtist := some (pyStrip (utf8Ignore payload)), lastUpdate := now }
    else if tc = coreChars ∧ cd = minmChars then
      { st with lastTitle := some (pyStrip (utf8Ignore payload)), lastUpdate := now }
    else st

/-- Python truthiness of an `Optional[str]`: `None` and `""` are falsy. -/
def truthy : Option (List Char) → Bool
  | none => false
  | some s => s ≠ []

/-- Python `x or default` on an `Optional[str]`. -/
def pyOr (x : Option (List Char)) (d : List Char) : List Char :=
  match x with
  | none => d
  | some s => if s = [] then d else s

def unknownArtistChars : List Char := "Unknown Artist".toList

def unknownTrackChars : List Char := "Unknown Track".toList

/-- `MetadataReader.get_track` (the snapshot taken under the lock, after
the non-blocking drain): `(artist or "Unknown Artist", title or
"Unknown Track", last_update)` when `last_artist or last_title` is truthy,
else the `(None, None, 0.0)` sentinel. -/
def getTrack (st : RState) : Option (List Char) × Option (List Char) × ℚ :=
  if truthy st.lastArtist ∨ truthy st.lastTitle then
    (some (pyOr st.lastArtist unknownArtistChars),
      some (pyOr st.lastTitle unknownTrackChars), st.lastUpdate)
  else (none, none, 0)

/-! ### Ambient spinner (`SPINNER_PATH`, `ambient_step`) -/

/-- The fixed closed spinner path (music_display.py:264-279). -/
def SPINNER_PATH : List (ℕ × ℕ) := [
  (0, 0), (1, 0), (2, 0), (3, 0), (4, 0), (5, 0), (6, 0), (7, 0),
  (7, 1), (7, 2), (7, 3), (7, 4), (7, 5), (7, 6), (7, 7),
  (6, 7), (5, 7), (4, 7), (3, 7), (2, 7), (1, 7), (0, 7),
  (0, 6), (0, 5), (0, 4), (0, 3), (0, 2), (0, 1),
  (1, 1), (2, 1), (3, 1), (4, 1), (5, 1), (6, 1),
  (6, 2), (6, 3), (6, 4), (6, 5), (6, 6),
  (5, 6), (4, 6), (3, 6), (2, 6), (1, 6),
  (1, 5), (1, 4), (1, 3), (1, 2),
  (2, 2), (3, 2), (4, 2), (5, 2),
  (5, 3), (5, 4), (5, 5),
  (4, 5), (3, 5), (2, 5),
  (2, 4), (2, 3),
  (3, 3), (4, 3),
  (4, 4), (3, 4)]

/-- The cursor update at the end of `ambient_step`:
`STATE.ambient_index = (current_index + 4) % len(SPINNER_PATH)`. -/
def ambientAdvance (i : ℕ) : ℕ := (i + 4) % SPINNER_PATH.length

/-! ### Spectral analyzer (`compute_levels`) over exact reals

A NumPy array value is modelled in `Option ℝ`: `none` is NaN.  With finite
inputs the only NaN source in `compute_levels` is `np.mean` of an empty
slice, and `np.maximum`, `np.log10`, affine arithmetic and `np.clip` all
propagate NaN, which `Option.map` mirrors. -/

/-- An input array as delivered to `compute_levels`: one-dimensional, or
two-dimensional with a fixed channel count (NumPy arrays are rectangular:
each row carries a proof of its length). -/
inductive NpBlock where
  | oneD (xs : List ℝ)
  | twoD (c : ℕ) (rows : List { l : List ℝ // l.length = c })

/-- All samples of the block in row-major order (`reshape(-1)` order, the
elements `np.mean(indata ** 2)` and `np.clip` act on). -/
def blockElems : NpBlock → List ℝ
  | .oneD xs => xs
  | .twoD _ rows => (rows.map Subtype.val).flatten

/-- Elementwise map (NumPy ufunc application, e.g. `np.clip`, `* gain`). -/
def mapBlock (f : ℝ → ℝ) : NpBlock → NpBlock
  | .oneD xs => .oneD (xs.map f)
  | .twoD c rows => .twoD c (rows.map (fun r => ⟨r.val.map f, by simp [r.property]⟩))

/-- The mono fold of `compute_levels`: `block.mean(axis=1)` when the block
is two-dimensional with more than one channel, else `block.reshape(-1)`. -/
noncomputable def toMono : NpBlock → List ℝ
  | .oneD xs => xs
  | .twoD c rows =>
    if 1 < c then rows.map (fun r => r.val.sum / c)
    else (rows.map Subtype.val).flatten

/-- `np.mean` of a 1-D slice: NaN (`none`) on an empty slice. -/
noncomputable def npMean : List ℝ → Option ℝ
  | [] => none
  | x :: t => some ((x :: t : List ℝ).sum / (x :: t : List ℝ).length)

/-- `np.hanning(M)`: `0.5 - 0.5*cos(2*pi*n/(M-1))`, and `[1.]` for `M = 1`. -/
noncomputable def hannWin (m n : ℕ) : ℝ :=
  if m = 1 then 1 else 1 / 2 - 1 / 2 * Real.cos (2 * Real.pi * n / (m - 1))

/-- Magnitude of bin `k` of `np.fft.rfft(xs)`:
`|Σ_j xs[j]·exp(-2πi·j·k/n)|`. -/
noncomputable def rfftAbs (xs : List ℝ) (k : ℕ) : ℝ :=
  Complex.abs (∑ j ∈ Finset.range xs.length,
    (xs.getD j 0 : ℂ) * Complex.exp (-(2 * Real.pi * Complex.I * j * k) / xs.length))

/-- `np.clip(x, lo, hi)` on a scalar. -/
noncomputable def npClip (lo hi x : ℝ) : ℝ := min (max x lo) hi

/-- `np.log10`. -/
noncomputable def npLog10 (x : ℝ) : ℝ := Real.logb 10 x

/-- `mono * window`: the Hann-windowed mono signal. -/
noncomputable def windowedOf (mono : List ℝ) : List ℝ :=
  (List.range mono.length).map (fun j => mono.getD j 0 * hannWin mono.length j)

/-- `mag = np.abs(np.fft.rfft(mono * window))[1:]`: the magnitude spectrum
with the DC bin discarded (`np.fft.rfft` output has `n // 2 + 1` bins). -/
noncomputable def magOf (mono : List ℝ) : List ℝ :=
  ((List.range (mono.length / 2 + 1)).map (rfftAbs (windowedOf mono))).drop 1

/-- One iteration of the band loop of `compute_levels`: slice bounds
`start = i*band_size`, `end = (i+1)*band_size` except `length` for the last
band; `0.0` when the slice is degenerate, else `np.mean` of the slice
(`none` = NaN when the slice is empty). -/
noncomputable def rawBand (nBands : ℕ) (mag : List ℝ) (i : ℕ) : Option ℝ :=
  let bandSize := max 1 (mag.length / nBands)
  let start := i * bandSize
  let stop := if i < nBands - 1 then (i + 1) * bandSize else mag.length
  if stop ≤ start then some 0 else npMean ((mag.drop start).take (stop - start))

/-- `compute_levels(block)` (music_display.py:393-436) with the band count
`CONFIG.n_bands` as a parameter.  Returns the per-band values; `none` is a
NaN entry. -/
noncomputable def computeLevels (nBands : ℕ) (block : NpBlock) : List (Option ℝ) :=
  let mono := toMono block
  if mono.length = 0 then List.replicate nBands (some 0)
  else
    let mag := magOf mono
    if mag.length = 0 then List.replicate nBands (some 0)
    else
      let bands := (List.range nBands).map (rawBand nBands mag)
      let bands1 := bands.map (Option.map (fun v => max v 1e-8))
      let bandsDb := bands1.map (Option.map (fun v => 20 * npLog10 v))
      let bandsN := bandsDb.map (Option.map (fun v => (v + 60) / 60))
      bandsN.map (Option.map (fun v => npClip 0 1 v))

/-! ### AGC + limiter (`audio_callback`, music_display.py:439-487) -/

noncomputable def agcTargetRmsC : ℝ := 0.02

noncomputable def agcMaxGainC : ℝ := 4.0

noncomputable def agcMinGainC : ℝ := 0.25

noncomputable def agcAttackC : ℝ := 0.1

noncomputable def agcReleaseC : ℝ := 0.01

noncomputable def limitThresholdC : ℝ := 0.25

noncomputable def smoothingC : ℝ := 0.3

/-- `np.clip(indata, -1.0, 1.0, out=indata)`. -/
noncomputable def clipUnit (b : NpBlock) : NpBlock := mapBlock (npClip (-1) 1) b

/-- `rms = float(np.sqrt(np.mean(indata ** 2))) if indata.size else 0.0`,
acting on the already unit-clipped frame. -/
noncomputable def rmsOf (b : NpBlock) : ℝ :=
  match blockElems b with
  | [] => 0
  | x :: t =>
    Real.sqrt (((x :: t : List ℝ).map (fun v => v ^ 2)).sum / (x :: t : List ℝ).length)

/-- The AGC update of `audio_callback`: clamp `target_rms / rms` to the
gain bounds, then asymmetric exponential smoothing; no update at all when
`rms ≤ 1e-6`. -/
noncomputable def gainUpdate (g : ℝ) (b : NpBlock) : ℝ :=
  let r := rmsOf (clipUnit b)
  if 1e-6 < r then
    let target := max (min (agcTargetRmsC / r) agcMaxGainC) agcMinGainC
    if g < target then g + agcAttackC * (target - g) else g + agcReleaseC * (target - g)
  else g

/-- `indata = indata * current_gain` followed by
`np.clip(indata, -limit_threshold, limit_threshold, out=indata)`, applied
to the unit-clipped frame; this is the frame handed to `compute_levels`. -/
noncomputable def adjustedFrame (g : ℝ) (b : NpBlock) : NpBlock :=
  mapBlock (npClip (-limitThresholdC) limitThresholdC) (mapBlock (fun x => x * g) (clipUnit b))

/-- The shared state written by `audio_callback`
(`ThreadSafeState._agc_gain`, `ThreadSafeState._levels_smooth`). -/
structure AState where
  agcGain : ℝ
  levelsSmooth : List (Option ℝ)

/-- `ThreadSafeState.__init__`: gain 1.0, eight zero levels. -/
noncomputable def initAState : AState :=
  { agcGain := 1, levelsSmooth := List.replicate 8 (some 0) }

/-- One `audio_callback` invocation, as a transition of the shared state:
AGC update, gain application + limiter, `compute_levels`, and the
`levels_smooth` exponential moving average
`smoothing * current + (1 - smoothing) * levels`. -/
noncomputable def callbackStep (st : AState) (b : NpBlock) : AState :=
  let g := gainUpdate st.agcGain b
  let levels := computeLevels 8 (adjustedFrame g b)
  { agcGain := g,
    levelsSmooth := List.zipWith
      (fun p n => p.bind (fun pv => n.map (fun nv => smoothingC * pv + (1 - smoothingC) * nv)))
      st.levelsSmooth levels }

/-- The gain stored after a sequence of callback frames, starting from the
initial gain `1.0`. -/
noncomputable def gainAfter (frames : List NpBlock) : ℝ :=
  frames.foldl gainUpdate 1

/-- The smoothing write of `AudioVisualizer.audio_callback`
(audio_visualizer.py:61): `self.levels = 0.7 * self.levels + 0.3 * bands`. -/
noncomputable def vizLevelsUpdate (prev bands : List ℝ) : List ℝ :=
  List.zipWith (fun p n => 0.7 * p + 0.3 * n) prev bands

/-! ### Concrete metadata items used as witnesses and counterexamples -/

/-- A complete artist item: type hex `636f7265` = "core", code hex
`61736172` = "asar", base64 data `QUI=` = b"AB". -/
def exArtistItem : List Char :=
  ("<item><type>636f7265</type><code>61736172</code>" ++
    "<data encoding=\"base64\">QUI=</data></item>").toList

/-- A complete title item: code hex `6d696e6d` = "minm", data `Q0Q=` = b"CD". -/
def exTitleItem : List Char :=
  ("<item><type>636f7265</type><code>6d696e6d</code>" ++
    "<data encoding=\"base64\">Q0Q=</data></item>").toList

/-- An artist item whose base64 data field is empty: it decodes to the
empty payload, so `last_artist` is set to the (falsy) empty string. -/
def exEmptyArtistItem : List Char :=
  ("<item><type>636f7265</type><code>61736172</code>" ++
    "<data encoding=\"base64\"></data></item>").toList

/-- An artist item whose payload is a single space (base64 `IA==`), which
`strip()` reduces to the empty string. -/
def exSpaceArtistItem : List Char :=
  ("<item><type>636f7265</type><code>61736172</code>" ++
    "<data encoding=\"base64\">IA==</data></item>").toList

/-- An item whose type field has an odd number of hex digits, so
`bytes.fromhex` raises `ValueError` and the item is dropped. -/
def exBadHexItem : List Char :=
  ("<item><type>636f726</type><code>61736172</code>" ++
    "<data encoding=\"base64\">QUI=</data></item>").toList

/-! ## Theorems -/

/-! ### Claim C9: the ambient cursor -/

/-- Claim C9: starting from cursor 0, after `K` idle render ticks with the
code's fixed step size 4 on the closed spinner path of length
`SPINNER_PATH.length` (= 64), the ambient cursor equals
`(K*4) mod length`, and every stored cursor value is a valid path index. -/
theorem ambient_cursor_mod (K : ℕ) :
    ambientAdvance^[K] 0 = (K * 4) % SPINNER_PATH.length ∧
      ambientAdvance^[K] 0 < SPINNER_PATH.length := by
  have hL : SPINNER_PATH.length = 64 := by rfl
  have hmod : ambientAdvance^[K] 0 = (K * 4) % SPINNER_PATH.length := by
    induction K with
    | zero => simp
    | succ k ih =>
      rw [Function.iterate_succ_apply', ih, ambientAdvance, hL]
      omega
  refine ⟨hmod, ?_⟩
  rw [hmod, hL]
  omega

/-! ### Claim C2: the limiter bounds the adjusted frame -/

lemma blockElems_mapBlock (f : ℝ → ℝ) (b : NpBlock) :
    blockElems (mapBlock f b) = (blockElems b).map f := by
  cases b with
  | oneD xs => rfl
  | twoD c rows =>
    simp only [blockElems, mapBlock, List.map_map, List.map_flatten]
    rfl

/-- Claim C2: for every input frame (any sample magnitudes) and every gain
value, each sample of the gain-scaled, hard-clipped frame handed to
`compute_levels` has absolute value at most `limit_threshold`. -/
theorem limiter_bounds_output (g : ℝ) (b : NpBlock) :
    (blockElems (adjustedFrame g b)).Forall (fun x => |x| ≤ limitThresholdC) := by
  rw [List.forall_iff_forall_mem]
  intro x hx
  rw [adjustedFrame, blockElems_mapBlock, List.mem_map] at hx
  obtain ⟨y, -, rfl⟩ := hx
  have hL : (0 : ℝ) ≤ limitThresholdC := by rw [limitThresholdC]; norm_num
  rw [npClip, abs_le]
  constructor
  · exact le_min (le_trans (by linarith) (le_max_right y (-limitThresholdC))) (by linarith)
  · exact min_le_right _ _

/-! ### Claim C8: the `levels_smooth` exponential moving average -/

/-- Claim C8: each `audio_callback` replaces the stored smoothed levels by
exactly `smoothing * previous + (1 - smoothing) * new_bands` applied
elementwise to the previous stored value and the freshly computed band
levels of the adjusted frame; the visualizer's `0.7*prev + 0.3*bands`
write is the same exponential moving average with factor `0.7`. -/
theorem levels_ema_update (st : AState) (b : NpBlock) :
    (callbackStep st b).levelsSmooth =
      List.zipWith (fun p n => p.bind (fun pv => n.map (fun nv =>
          smoothingC * pv + (1 - smoothingC) * nv)))
        st.levelsSmooth
        (computeLevels 8 (adjustedFrame (gainUpdate st.agcGain b) b)) ∧
    (∀ prev bands : List ℝ, vizLevelsUpdate prev bands =
      List.zipWith (fun p n => 0.7 * p + (1 - 0.7) * n) prev bands) := by
  constructor
  · rfl
  · intro prev bands
    rw [vizLevelsUpdate]
    congr 1
    funext p n
    norm_num

/-! ### Claim C3: the AGC gain invariant -/

lemma gainUpdate_mem (g : ℝ) (b : NpBlock)
    (h1 : agcMinGainC ≤ g) (h2 : g ≤ agcMaxGainC) :
    agcMinGainC ≤ gainUpdate g b ∧ gainUpdate g b ≤ agcMaxGainC := by
  simp only [gainUpdate]
  split
  · set r := rmsOf (clipUnit b) with hr
    set t := max (min (agcTargetRmsC / r) agcMaxGainC) agcMinGainC with ht
    have ht1 : agcMinGainC ≤ t := le_max_right _ _
    have ht2 : t ≤ agcMaxGainC := by
      rw [ht]
      refine max_le (min_le_right _ _) ?_
      rw [agcMinGainC, agcMaxGainC]
      norm_num
    rw [agcAttackC, agcReleaseC]
    split <;> constructor <;> linarith
  · exact ⟨h1, h2⟩

lemma foldl_gainUpdate_mem (frames : List NpBlock) :
    ∀ g : ℝ, agcMinGainC ≤ g → g ≤ agcMaxGainC →
      agcMinGainC ≤ frames.foldl gainUpdate g ∧
        frames.foldl gainUpdate g ≤ agcMaxGainC := by
  induction frames with
  | nil => exact fun g h1 h2 => ⟨h1, h2⟩
  | cons f fs ih =>
    intro g h1 h2
    rw [List.foldl_cons]
    obtain ⟨k1, k2⟩ := gainUpdate_mem g f h1 h2
    exact ih _ k1 k2

/-- Claim C3: starting from the initial gain `1.0`, the AGC gain is inside
`[min_gain, max_gain]` after every callback's gain update, for every
sequence of input frames; and when the frame's RMS is not above `1e-6` the
gain is left unchanged. -/
theorem agc_gain_bounds :
    (∀ frames : List NpBlock,
      agcMinGainC ≤ gainAfter frames ∧ gainAfter frames ≤ agcMaxGainC) ∧
    (∀ (g : ℝ) (b : NpBlock), ¬ ((1e-6 : ℝ) < rmsOf (clipUnit b)) →
      gainUpdate g b = g) := by
  constructor
  · intro frames
    rw [gainAfter]
    refine foldl_gainUpdate_mem frames 1 ?_ ?_
    · rw [agcMinGainC]; norm_num
    · rw [agcMaxGainC]; norm_num
  · intro g b h
    rw [gainUpdate, if_neg h]

lemma rms_zero_frame : rmsOf (clipUnit (NpBlock.oneD [0])) = 0 := by
  have hc : npClip (-1) 1 (0 : ℝ) = 0 := by
    rw [npClip, max_eq_left (by norm_num), min_eq_left (by norm_num)]
  have he : blockElems (clipUnit (NpBlock.oneD [0])) = [0] := by
    rw [clipUnit, blockElems_mapBlock]
    simp [blockElems, hc]
  rw [rmsOf]
  rw [he]
  norm_num

/-- Witness for C3 at concrete inputs: the all-zero one-sample frame has
RMS `0 ≤ 1e-6`, and the update leaves an arbitrary concrete gain `2`
unchanged. -/
theorem agc_gain_bounds_wit :
    (¬ ((1e-6 : ℝ) < rmsOf (clipUnit (NpBlock.oneD [0])))) ∧
      gainUpdate 2 (NpBlock.oneD [0]) = 2 := by
  have h : ¬ ((1e-6 : ℝ) < rmsOf (clipUnit (NpBlock.oneD [0]))) := by
    rw [rms_zero_frame]
    norm_num
  exact ⟨h, agc_gain_bounds.2 2 (NpBlock.oneD [0]) h⟩

/-! ### Claims C1 and C4: `compute_levels` output shape and bounds -/

lemma computeLevels_length (nB : ℕ) (b : NpBlock) :
    (computeLevels nB b).length = nB := by
  simp only [computeLevels]
  split
  · simp
  · split <;> simp

lemma npMean_isSome {l : List ℝ} (h : l ≠ []) : ∃ y, npMean l = some y := by
  cases l with
  | nil => exact absurd rfl h
  | cons x t => exact ⟨_, rfl⟩

lemma npMean_zero {l : List ℝ} (h : l ≠ []) (hz : ∀ x ∈ l, x = 0) :
    npMean l = some 0 := by
  cases l with
  | nil => exact absurd rfl h
  | cons x t =>
    rw [npMean]
    rw [List.sum_eq_zero hz]
    simp

lemma rawBand_eq_mean_or_zero (nB : ℕ) (mag : List ℝ) (i : ℕ) (hi : i < nB)
    (hm : mag.length ≠ 0) (hcond : nB - 1 ≤ mag.length) :
    rawBand nB mag i = some 0 ∨
      ∃ l : List ℝ, l ≠ [] ∧ (∀ x ∈ l, x ∈ mag) ∧ rawBand nB mag i = npMean l := by
  simp only [rawBand]
  by_cases hstop : (if i < nB - 1 then (i + 1) * max 1 (mag.length / nB) else mag.length) ≤
      i * max 1 (mag.length / nB)
  · rw [if_pos hstop]
    exact Or.inl rfl
  · rw [if_neg hstop]
    set bs := max 1 (mag.length / nB) with hbs
    have hbs1 : 1 ≤ bs := le_max_left _ _
    have hstart : i * bs < mag.length := by
      by_cases hlast : i < nB - 1
      · by_cases hsmall : mag.length < nB
        · have hbseq : bs = 1 := by
            simp [hbs, Nat.div_eq_of_lt hsmall]
          rw [hbseq]
          omega
        · push_neg at hsmall
          have hq1 : 1 ≤ mag.length / nB := (Nat.one_le_div_iff (by omega)).mpr hsmall
          have hbsq : bs = mag.length / nB := by
            rw [hbs]
            exact max_eq_right hq1
          have e1 : i * bs ≤ (nB - 2) * bs := Nat.mul_le_mul_right bs (by omega)
          have e2 : (nB - 2) * bs + 2 * bs = nB * bs := by
            rw [← Nat.add_mul]
            congr 1
            omega
          have e3 : nB * bs ≤ mag.length := by
            rw [hbsq, Nat.mul_comm]
            exact Nat.div_mul_le_self _ _
          omega
      · rw [if_neg hlast] at hstop
        omega
    refine Or.inr ⟨_, ?_,
      fun x hx => List.mem_of_mem_drop (List.mem_of_mem_take hx), rfl⟩
    intro hnil
    have hlen := congrArg List.length hnil
    rw [List.length_take, List.length_drop] at hlen
    simp only [List.length_nil] at hlen
    rcases Nat.min_eq_zero_iff.mp hlen with h0 | h0
    · omega
    · omega

lemma rawBand_isSome (nB : ℕ) (mag : List ℝ) (i : ℕ) (hi : i < nB)
    (hm : mag.length ≠ 0) (hcond : nB - 1 ≤ mag.length) :
    ∃ y, rawBand nB mag i = some y := by
  rcases rawBand_eq_mean_or_zero nB mag i hi hm hcond with h | ⟨l, hne, -, heq⟩
  · exact ⟨0, h⟩
  · obtain ⟨y, hy⟩ := npMean_isSome hne
    exact ⟨y, heq.trans hy⟩

lemma rawBand_zero (nB : ℕ) (mag : List ℝ) (i : ℕ) (hi : i < nB)
    (hm : mag.length ≠ 0) (hcond : nB - 1 ≤ mag.length) (hz : ∀ x ∈ mag, x = 0) :
    rawBand nB mag i = some 0 := by
  rcases rawBand_eq_mean_or_zero nB mag i hi hm hcond with h | ⟨l, hne, hsub, heq⟩
  · exact h
  · rw [heq, npMean_zero hne (fun x hx => hz x (hsub x hx))]

lemma mem_bandPipeline_bounds {w v : Option ℝ}
    (hv : v = Option.map (fun x => npClip 0 1 x)
      (Option.map (fun x => (x + 60) / 60)
        (Option.map (fun x => 20 * npLog10 x)
          (Option.map (fun x => max x 1e-8) w))))
    (hw : ∃ y, w = some y) :
    ∃ x : ℝ, v = some x ∧ 0 ≤ x ∧ x ≤ 1 := by
  obtain ⟨y, rfl⟩ := hw
  refine ⟨npClip 0 1 ((20 * npLog10 (max y 1e-8) + 60) / 60), by simp [hv], ?_, ?_⟩
  · exact le_min (le_max_right _ _) (by norm_num)
  · exact min_le_right _ _

/-- Counterexample to claim C1 as stated: the two-sample block `[1, 0]`
yields a magnitude spectrum with a single bin, so band 1 averages an empty
slice: `np.mean` of an empty slice is NaN (`none`), which is not a value
in [0,1] (the returned length is still 8). -/
theorem compute_levels_unit_cex :
    (computeLevels 8 (NpBlock.oneD [1, 0])).length = 8 ∧
      (computeLevels 8 (NpBlock.oneD [1, 0]))[1]? = some none := by
  exact ⟨computeLevels_length 8 _, rfl⟩

/-- Claim C1 (amended): for every band count `N ≥ 1` and every input block,
`compute_levels` returns exactly `N` values; and whenever the retained
magnitude-bin count is zero or at least `N - 1` (true in particular for
every block of at least `2(N-1)` mono samples, hence for the configured
block sizes), every returned value is a real number in [0,1]. -/
theorem compute_levels_len_unit (nB : ℕ) (b : NpBlock) (h1 : 1 ≤ nB)
    (h2 : (magOf (toMono b)).length = 0 ∨ nB - 1 ≤ (magOf (toMono b)).length) :
    (computeLevels nB b).length = nB ∧
      ∀ v ∈ computeLevels nB b, ∃ x : ℝ, v = some x ∧ 0 ≤ x ∧ x ≤ 1 := by
  refine ⟨computeLevels_length nB b, ?_⟩
  intro v hv
  by_cases hn : (toMono b).length = 0
  · rw [computeLevels] at hv
    simp only [hn, if_pos] at hv
    rw [List.eq_of_mem_replicate hv]
    exact ⟨0, rfl, le_refl 0, by norm_num⟩
  · by_cases hm : (magOf (toMono b)).length = 0
    · rw [computeLevels] at hv
      simp only [if_neg hn, hm, if_pos] at hv
      rw [List.eq_of_mem_replicate hv]
      exact ⟨0, rfl, le_refl 0, by norm_num⟩
    · rw [computeLevels] at hv
      simp only [if_neg hn, if_neg hm, List.mem_map, List.mem_range] at hv
      obtain ⟨w3, ⟨w2, ⟨w1, ⟨w0, ⟨i, hi, hw0⟩, hw1⟩, hw2⟩, hw3⟩, hv⟩ := hv
      have hcond : nB - 1 ≤ (magOf (toMono b)).length := h2.resolve_left hm
      obtain ⟨y, hy⟩ := rawBand_isSome nB (magOf (toMono b)) i hi hm hcond
      refine mem_bandPipeline_bounds (w := rawBand nB (magOf (toMono b)) i) ?_ ⟨y, hy⟩
      rw [← hv, ← hw3, ← hw2, ← hw1, ← hw0]

/-- Witness for C1 (amended) at a concrete input: a 16-sample block gives
8 magnitude bins (`≥ 8 - 1`), and the output has exactly 8 values. -/
theorem compute_levels_len_unit_wit :
    ((1 : ℕ) ≤ 8 ∧
      ((magOf (toMono (NpBlock.oneD (List.replicate 16 1)))).length = 0 ∨
        8 - 1 ≤ (magOf (toMono (NpBlock.oneD (List.replicate 16 1)))).length)) ∧
    (computeLevels 8 (NpBlock.oneD (List.replicate 16 1))).length = 8 := by
  have hm : (magOf (toMono (NpBlock.oneD (List.replicate 16 1)))).length = 8 := by
    simp [magOf, toMono]
  refine ⟨⟨by norm_num, Or.inr (by rw [hm]; norm_num)⟩, ?_⟩
  exact (compute_levels_len_unit 8 (NpBlock.oneD (List.replicate 16 1)) (by norm_num)
    (Or.inr (by rw [hm]; norm_num))).1

lemma toMono_zero {b : NpBlock} (hz : ∀ x ∈ blockElems b, x = 0) :
    ∀ x ∈ toMono b, x = 0 := by
  cases b with
  | oneD xs => exact hz
  | twoD c rows =>
    intro x hx
    rw [toMono] at hx
    split at hx
    · rw [List.mem_map] at hx
      obtain ⟨r, hr, rfl⟩ := hx
      have hmem : ∀ y ∈ r.val, y = 0 := by
        intro y hy
        apply hz
        show y ∈ (rows.map Subtype.val).flatten
        rw [List.mem_flatten]
        exact ⟨r.val, List.mem_map_of_mem _ hr, hy⟩
      rw [List.sum_eq_zero hmem, zero_div]
    · exact hz x hx

lemma getD_zero {l : List ℝ} (hz : ∀ x ∈ l, x = 0) (j : ℕ) : l.getD j 0 = 0 := by
  rw [List.getD_eq_getElem?_getD]
  rcases hg : l[j]? with _ | x
  · rfl
  · exact hz x (List.getElem?_mem hg)

lemma windowedOf_zero {mono : List ℝ} (hz : ∀ x ∈ mono, x = 0) :
    ∀ x ∈ windowedOf mono, x = 0 := by
  intro x hx
  rw [windowedOf, List.mem_map] at hx
  obtain ⟨j, -, rfl⟩ := hx
  rw [getD_zero hz, zero_mul]

lemma rfftAbs_zero {xs : List ℝ} (hz : ∀ x ∈ xs, x = 0) (k : ℕ) : rfftAbs xs k = 0 := by
  rw [rfftAbs]
  rw [Finset.sum_eq_zero]
  · exact map_zero Complex.abs
  · intro j hj
    rw [getD_zero hz]
    simp

lemma magOf_zero {mono : List ℝ} (hz : ∀ x ∈ mono, x = 0) :
    ∀ x ∈ magOf mono, x = 0 := by
  intro x hx
  rw [magOf] at hx
  have hx2 := List.mem_of_mem_drop hx
  rw [List.mem_map] at hx2
  obtain ⟨k, -, rfl⟩ := hx2
  exact rfftAbs_zero (windowedOf_zero hz) k

lemma pipeline_zero_val : npClip 0 1 ((20 * npLog10 (max (0:ℝ) 1e-8) + 60) / 60) = 0 := by
  have h8 : max (0:ℝ) 1e-8 = 1e-8 := max_eq_right (by norm_num)
  have hlog : npLog10 (1e-8 : ℝ) = -8 := by
    rw [npLog10]
    have he : (1e-8 : ℝ) = (10 : ℝ) ^ (-8 : ℤ) := by norm_num
    rw [he, Real.logb, Real.log_zpow]
    rw [mul_div_assoc, div_self (ne_of_gt (Real.log_pos (by norm_num)))]
    norm_num
  rw [h8, hlog]
  have hval : (20 * (-8 : ℝ) + 60) / 60 = -5 / 3 := by norm_num
  rw [hval, npClip, max_eq_right (by norm_num), min_eq_left (by norm_num)]

/-- Counterexample to claim C4 as stated: the all-zero two-sample block
`[0, 0]` is a silence input, yet band 1 of the output is NaN (`none`), not
zero, because its bin slice is empty and `np.mean` of an empty slice is
NaN. -/
theorem compute_levels_silence_cex :
    (blockElems (NpBlock.oneD [0, 0])).Forall (fun x => x = (0 : ℝ)) ∧
      (computeLevels 8 (NpBlock.oneD [0, 0]))[1]? = some none :=
  ⟨⟨rfl, rfl⟩, rfl⟩

/-- Claim C4 (amended): `compute_levels` on the empty block returns
all-zero bands, and on any all-zero block whose retained magnitude-bin
count is zero or at least `N - 1` (true for the configured block sizes) it
returns all-zero bands; neither case raises. -/
theorem compute_levels_silence_zero (nB : ℕ) (b : NpBlock) (h1 : 1 ≤ nB)
    (hz : ∀ x ∈ blockElems b, x = 0)
    (h2 : (magOf (toMono b)).length = 0 ∨ nB - 1 ≤ (magOf (toMono b)).length) :
    computeLevels nB b = List.replicate nB (some 0) ∧
      computeLevels nB (NpBlock.oneD []) = List.replicate nB (some 0) := by
  constructor
  · by_cases hn : (toMono b).length = 0
    · rw [computeLevels]
      simp only [hn, if_pos]
    · by_cases hm : (magOf (toMono b)).length = 0
      · rw [computeLevels]
        simp only [if_neg hn, hm, if_pos]
      · have hcond : nB - 1 ≤ (magOf (toMono b)).length := h2.resolve_left hm
        have hmz : ∀ x ∈ magOf (toMono b), x = 0 := magOf_zero (toMono_zero hz)
        rw [computeLevels]
        simp only [if_neg hn, if_neg hm]
        rw [List.map_congr_left (fun i hi =>
          rawBand_zero nB (magOf (toMono b)) i (List.mem_range.mp hi) hm hcond hmz)]
        rw [List.map_const', List.length_range]
        simp only [List.map_replicate, Option.map_some']
        rw [pipeline_zero_val]
  · rw [computeLevels]
    simp [toMono]

/-- Witness for C4 (amended) at a concrete input: the all-zero 16-sample
block (8 magnitude bins) yields exactly eight zero bands. -/
theorem compute_levels_silence_zero_wit :
    ((blockElems (NpBlock.oneD (List.replicate 16 (0 : ℝ)))).Forall (fun x => x = 0) ∧
      ((magOf (toMono (NpBlock.oneD (List.replicate 16 (0 : ℝ))))).length = 0 ∨
        8 - 1 ≤ (magOf (toMono (NpBlock.oneD (List.replicate 16 (0 : ℝ))))).length)) ∧
    computeLevels 8 (NpBlock.oneD (List.replicate 16 0)) = List.replicate 8 (some 0) := by
  have hz : ∀ x ∈ blockElems (NpBlock.oneD (List.replicate 16 (0 : ℝ))), x = 0 := by
    intro x hx
    rw [blockElems] at hx
    exact (List.eq_of_mem_replicate hx)
  have hm0 : (magOf (toMono (NpBlock.oneD (List.replicate 16 (0 : ℝ))))).length = 8 := by
    simp [magOf, toMono]
  refine ⟨⟨List.forall_iff_forall_mem.mpr hz, Or.inr (by rw [hm0]; norm_num)⟩, ?_⟩
  exact (compute_levels_silence_zero 8 (NpBlock.oneD (List.replicate 16 0)) (by norm_num)
    hz (Or.inr (by rw [hm0]; norm_num))).1

/-! ### Claim C5: bounded buffer growth without a start marker -/

lemma findSub_some_occurs {pat l : List Char} {j : ℕ} (h : findSub pat l = some j) :
    pat <:+: l := by
  obtain ⟨-, h2⟩ := findSubAux_le_length pat l 0 j h
  have hp : pat <+: l.drop (j - 0) := List.isPrefixOf_iff_prefix.mp h2
  exact hp.isInfix.trans (List.drop_suffix _ _).isInfix

lemma processBuffer_no_marker {buf : List Char} (h : ¬ itemOpenMarker <:+: buf) :
    processBuffer buf = ([], takeTail 1024 buf) := by
  rw [processBuffer.eq_def]
  split
  · rfl
  · rename_i s hs
    exact absurd (findSub_some_occurs hs) h

lemma takeTail_le (n : ℕ) (l : List Char) : (takeTail n l).length ≤ n := by
  rw [takeTail, List.length_drop]
  omega

lemma suffix_append_of_suffix {l₁ l₂ t : List Char} (h : l₁ <:+ l₂) :
    l₁ ++ t <:+ l₂ ++ t := by
  obtain ⟨u, hu⟩ := h
  exact ⟨u, by rw [← hu, List.append_assoc]⟩

lemma runBuffer_no_marker :
    ∀ (chunks : List (List Char)) (buf : List Char),
      ¬ itemOpenMarker <:+: (buf ++ chunks.flatten) →
      (runBuffer buf chunks <:+ buf ++ chunks.flatten) ∧
        (chunks ≠ [] → (runBuffer buf chunks).length ≤ 1024) := by
  intro chunks
  induction chunks with
  | nil =>
    intro buf h
    refine ⟨by simp [runBuffer], fun hne => absurd rfl hne⟩
  | cons c cs ih =>
    intro buf h
    have hpre : (buf ++ c) <+: buf ++ (c :: cs).flatten :=
      ⟨cs.flatten, by rw [List.flatten_cons, List.append_assoc]⟩
    have hnc : ¬ itemOpenMarker <:+: (buf ++ c) := fun hin =>
      h (hin.trans hpre.isInfix)
    have hfeed : (feedChunk buf c).2 = takeTail 1024 (buf ++ c) := by
      rw [feedChunk, processBuffer_no_marker hnc]
    have hsuf : (feedChunk buf c).2 <:+ buf ++ c := by
      rw [hfeed, takeTail]
      exact List.drop_suffix _ _
    have happ : (feedChunk buf c).2 ++ cs.flatten <:+ buf ++ (c :: cs).flatten := by
      have := suffix_append_of_suffix (t := cs.flatten) hsuf
      rwa [List.append_assoc, ← List.flatten_cons] at this
    have hnext : ¬ itemOpenMarker <:+: ((feedChunk buf c).2 ++ cs.flatten) := fun hin =>
      h (hin.trans happ.isInfix)
    obtain ⟨hs2, hlen2⟩ := ih ((feedChunk buf c).2) hnext
    rw [runBuffer]
    constructor
    · exact hs2.trans happ
    · intro _
      cases cs with
      | nil =>
        rw [runBuffer, hfeed]
        exact takeTail_le 1024 _
      | cons d ds => exact hlen2 (by simp)

/-- Claim C5: starting from the empty buffer, for every sequence of
incoming chunks whose concatenation never contains the `<item>` start
marker, the reader's buffer length is at most the fixed 1024-character cap
after each chunk is processed. -/
theorem metadata_buffer_bounded (chunks : List (List Char))
    (h : ¬ itemOpenMarker <:+: chunks.flatten) :
    ∀ k : ℕ, (runBuffer [] (chunks.take k)).length ≤ 1024 := by
  intro k
  have hpre : (chunks.take k).flatten <+: chunks.flatten :=
    ⟨(chunks.drop k).flatten, by rw [← List.flatten_append, List.take_append_drop]⟩
  have hno : ¬ itemOpenMarker <:+: ([] ++ (chunks.take k).flatten) := by
    rw [List.nil_append]
    exact fun hin => h (hin.trans hpre.isInfix)
  cases hk : chunks.take k with
  | nil => simp [runBuffer]
  | cons c cs =>
    rw [hk] at hno
    exact (runBuffer_no_marker (c :: cs) [] hno).2 (by simp)

/-- Witness for C5: two concrete marker-free chunks leave a buffer of at
most 1024 characters. -/
theorem metadata_buffer_bounded_wit :
    (¬ itemOpenMarker <:+: (["ab".toList, "cd".toList] : List (List Char)).flatten) ∧
      (runBuffer [] ((["ab".toList, "cd".toList] : List (List Char)).take 2)).length ≤ 1024 := by
  have h : ¬ itemOpenMarker <:+: (["ab".toList, "cd".toList] : List (List Char)).flatten := by
    decide
  exact ⟨h, metadata_buffer_bounded ["ab".toList, "cd".toList] h 2⟩

/-! ### Claim C6: malformed items are silently dropped -/

/-- Claim C6: for every extracted item string, if regex extraction misses a
required sub-field or the hex/base64 decoding of any sub-field fails
(`decodeItemFields item = none` covers exactly these early returns of
`_handle_item_xml`), handling the item leaves the stored artist, title and
`last_update` unchanged — the item is silently dropped, with no exception
escaping. -/
theorem malformed_item_dropped (st : RState) (item : List Char) (now : ℚ)
    (h : decodeItemFields item = none) : handleItem st item now = st := by
  rw [handleItem, h]

/-- Witness for C6: a concrete item whose type field has an odd number of
hex digits fails to decode and leaves the initial state unchanged. -/
theorem malformed_item_dropped_wit :
    decodeItemFields exBadHexItem = none ∧
      handleItem initState exBadHexItem 5 = initState := by
  have h : decodeItemFields exBadHexItem = none := by rfl
  exact ⟨h, malformed_item_dropped initState exBadHexItem 5 h⟩

/-! ### Claim C7: the `get_track` sentinel and the asar/minm scenario -/

lemma handleItem_decoded {item : List Char} {tc cd : List Char} {payload : List ℕ}
    (st : RState) (now : ℚ)
    (h : decodeItemFields item = some (tc, cd, payload)) :
    handleItem st item now =
      if tc = coreChars ∧ cd = asarChars then
        { st with lastArtist := some (pyStrip (utf8Ignore payload)), lastUpdate := now }
      else if tc = coreChars ∧ cd = minmChars then
        { st with lastTitle := some (pyStrip (utf8Ignore payload)), lastUpdate := now }
      else st := by
  rw [handleItem, h]

/-- Counterexample to claim C7 as stated: a complete, well-formed artist
item whose payload decodes (and strips) to the empty string is observed —
it sets `last_artist` to `""` and `last_update` to the processing time —
and yet `get_track` still returns the unset sentinel, because the code
tests Python truthiness (`""` is falsy), not whether an item was ever
observed. -/
theorem get_track_sentinel_cex :
    decodeItemFields exEmptyArtistItem = some (coreChars, asarChars, []) ∧
      (handleItem initState exEmptyArtistItem 3).lastArtist = some [] ∧
      (handleItem initState exEmptyArtistItem 3).lastUpdate = 3 ∧
      getTrack (handleItem initState exEmptyArtistItem 3) = (none, none, 0) :=
  ⟨rfl, rfl, rfl, rfl⟩

/-- Claim C7 (amended): `get_track()` returns the unset sentinel
`(None, None, 0.0)` if and only if neither stored field currently holds a
nonempty string; and after handling one complete item decoding to
`("core", "asar")` and then one decoding to `("core", "minm")`, both with
nonempty (post-strip) payloads, `get_track()` returns that (artist, title)
pair with `last_update` equal to — in particular at least — the time the
second item was processed. -/
theorem get_track_sentinel_amended :
    (∀ st : RState, getTrack st = (none, none, 0) ↔
      (truthy st.lastArtist = false ∧ truthy st.lastTitle = false)) ∧
    (∀ (st : RState) (i1 i2 : List Char) (t1 t2 : ℚ) (a b : List ℕ),
      decodeItemFields i1 = some (coreChars, asarChars, a) →
      decodeItemFields i2 = some (coreChars, minmChars, b) →
      pyStrip (utf8Ignore a) ≠ [] → pyStrip (utf8Ignore b) ≠ [] →
      getTrack (handleItem (handleItem st i1 t1) i2 t2) =
          (some (pyStrip (utf8Ignore a)), some (pyStrip (utf8Ignore b)), t2) ∧
        t2 ≤ (getTrack (handleItem (handleItem st i1 t1) i2 t2)).2.2) := by
  constructor
  · intro st
    rw [getTrack]
    by_cases hc : truthy st.lastArtist = true ∨ truthy st.lastTitle = true
    · rw [if_pos hc]
      constructor
      · intro he
        exact absurd (congrArg Prod.fst he) (by simp)
      · rintro ⟨ha, hb⟩
        rcases hc with h | h
        · rw [ha] at h
          cases h
        · rw [hb] at h
          cases h
    · rw [if_neg hc]
      push_neg at hc
      obtain ⟨ha, hb⟩ := hc
      simp only [Bool.not_eq_true] at ha hb
      exact iff_of_true rfl ⟨ha, hb⟩
  · intro st i1 i2 t1 t2 a b h1 h2 ha hb
    have hne : ¬ (coreChars = coreChars ∧ minmChars = asarChars) := by decide
    have hs1 : handleItem st i1 t1 =
        { st with lastArtist := some (pyStrip (utf8Ignore a)), lastUpdate := t1 } := by
      rw [handleItem_decoded st t1 h1, if_pos ⟨rfl, rfl⟩]
    have hs2 : handleItem (handleItem st i1 t1) i2 t2 =
        { handleItem st i1 t1 with
            lastTitle := some (pyStrip (utf8Ignore b)), lastUpdate := t2 } := by
      rw [handleItem_decoded (handleItem st i1 t1) t2 h2, if_neg hne, if_pos ⟨rfl, rfl⟩]
    have htr : truthy (some (pyStrip (utf8Ignore a))) = true := by
      rw [truthy]
      exact decide_eq_true ha
    have heq : getTrack (handleItem (handleItem st i1 t1) i2 t2) =
        (some (pyStrip (utf8Ignore a)), some (pyStrip (utf8Ignore b)), t2) := by
      rw [hs2, hs1, getTrack]
      rw [if_pos (Or.inl htr)]
      simp only [pyOr]
      rw [if_neg ha, if_neg hb]
    refine ⟨heq, ?_⟩
    rw [heq]

/-- Witness for C7 (amended): concrete artist ("AB") and title ("CD")
items handled at times 1 and 2 yield `(some "AB", some "CD", 2)`. -/
theorem get_track_sentinel_amended_wit :
    (decodeItemFields exArtistItem = some (coreChars, asarChars, [65, 66]) ∧
      decodeItemFields exTitleItem = some (coreChars, minmChars, [67, 68]) ∧
      pyStrip (utf8Ignore [65, 66]) ≠ [] ∧ pyStrip (utf8Ignore [67, 68]) ≠ []) ∧
    getTrack (handleItem (handleItem initState exArtistItem 1) exTitleItem 2) =
      (some ['A', 'B'], some ['C', 'D'], 2) := by
  have h1 : decodeItemFields exArtistItem = some (coreChars, asarChars, [65, 66]) := rfl
  have h2 : decodeItemFields exTitleItem = some (coreChars, minmChars, [67, 68]) := rfl
  have ha : pyStrip (utf8Ignore [65, 66]) ≠ [] := by decide
  have hb : pyStrip (utf8Ignore [67, 68]) ≠ [] := by decide
  have := (get_track_sentinel_amended.2 initState exArtistItem exTitleItem 1 2
    [65, 66] [67, 68] h1 h2 ha hb).1
  exact ⟨⟨h1, h2, ha, hb⟩, this.trans (by rfl)⟩

/-! ### Claim C10: placeholders for partially observed tracks -/

/-- Counterexample to claim C10 as stated: after one artist item whose
payload strips to the empty string (a reader state where exactly one field
has ever been observed), `get_track` returns `None` fields — not the
`"Unknown ..."` placeholders — even though a field is set and the stored
timestamp is nonzero, contradicting both halves of the claim. -/
theorem get_track_placeholder_cex :
    decodeItemFields exSpaceArtistItem = some (coreChars, asarChars, [32]) ∧
      (handleItem initState exSpaceArtistItem 7).lastArtist = some [] ∧
      (handleItem initState exSpaceArtistItem 7).lastTitle = none ∧
      (handleItem initState exSpaceArtistItem 7).lastUpdate = 7 ∧
      getTrack (handleItem initState exSpaceArtistItem 7) = (none, none, 0) :=
  ⟨rfl, rfl, rfl, rfl, rfl⟩

lemma pyOr_of_not_truthy {x : Option (List Char)} (d : List Char)
    (h : truthy x = false) : pyOr x d = d := by
  cases x with
  | none => rfl
  | some s =>
    rw [truthy] at h
    rw [pyOr, if_pos (by simpa using h)]

lemma pyOr_of_truthy {x : Option (List Char)} (d : List Char)
    (h : truthy x = true) : ∃ s, x = some s ∧ s ≠ [] ∧ pyOr x d = s := by
  cases x with
  | none => cases h
  | some s =>
    rw [truthy] at h
    exact ⟨s, rfl, of_decide_eq_true h, by rw [pyOr, if_neg (of_decide_eq_true h)]⟩

/-- Claim C10 (amended): when exactly one of the stored fields holds a
nonempty string, `get_track` returns the `"Unknown Artist"` /
`"Unknown Track"` placeholder for the other (unset-or-empty) field; and a
result field is `None` exactly when neither stored field holds a nonempty
string (in which case the whole sentinel, including timestamp `0`, is
returned — the stored field values and timestamp themselves need not be
unset). -/
theorem get_track_placeholder_amended :
    (∀ st : RState, truthy st.lastArtist = true → truthy st.lastTitle = false →
      getTrack st =
        (some (pyOr st.lastArtist unknownArtistChars), some unknownTrackChars,
          st.lastUpdate)) ∧
    (∀ st : RState, truthy st.lastArtist = false → truthy st.lastTitle = true →
      getTrack st =
        (some unknownArtistChars, some (pyOr st.lastTitle unknownTrackChars),
          st.lastUpdate)) ∧
    (∀ st : RState, (getTrack st).1 = none ↔
      (truthy st.lastArtist = false ∧ truthy st.lastTitle = false)) := by
  refine ⟨?_, ?_, ?_⟩
  · intro st ha hb
    rw [getTrack, if_pos (Or.inl ha)]
    rw [pyOr_of_not_truthy unknownTrackChars hb]
  · intro st ha hb
    rw [getTrack, if_pos (Or.inr hb)]
    rw [pyOr_of_not_truthy unknownArtistChars ha]
  · intro st
    rw [getTrack]
    by_cases hc : truthy st.lastArtist = true ∨ truthy st.lastTitle = true
    · rw [if_pos hc]
      constructor
      · intro he
        cases he
      · rintro ⟨ha, hb⟩
        rcases hc with h | h
        · rw [ha] at h
          cases h
        · rw [hb] at h
          cases h
    · rw [if_neg hc]
      push_neg at hc
      obtain ⟨ha, hb⟩ := hc
      simp only [Bool.not_eq_true] at ha hb
      exact iff_of_true rfl ⟨ha, hb⟩

/-- Witness for C10 (amended): a state holding only an artist `"A"` yields
the `"Unknown Track"` placeholder for the title. -/
theorem get_track_placeholder_amended_wit :
    (truthy (some ['A']) = true ∧ truthy (none : Option (List Char)) = false) ∧
      getTrack { lastArtist := some ['A'], lastTitle := none, lastUpdate := 5 } =
        (some ['A'], some unknownTrackChars, 5) := by
  have h := get_track_placeholder_amended.1
    { lastArtist := some ['A'], lastTitle := none, lastUpdate := 5 } rfl rfl
  exact ⟨⟨rfl, rfl⟩, h.trans (by rfl)⟩

end SenseMusic
